import Mathlib

/-!
Verification development for the ai_dialer_mini repository.

This file embeds, as executable Lean definitions, the parts of the Go
source that the verified properties talk about:

* the two recognizer-result decoders (the slot-array one in the xfyun
  websocket client and the append-only one in internal/service/asr),
* the event-socket header parsing, handler registry and body reading of
  internal/clients/freeswitch/esl_client.go,
* the session lifecycle operations Start, Stop and WriteAudio of
  internal/service/asr/xfyun.go,
* a call-session tracker modelled from the specification (the repository
  contains only the status enumeration and logging consumers for it).

Go machine integers that hold protocol sequence numbers, ranges and
lengths are modelled as Nat: the wire protocol only ever produces
nonnegative values for them, and no arithmetic in the modelled code can
overflow 64-bit at the sizes involved.  Go slices become Lean lists,
Go maps become association lists with unique keys maintained by the
update operation, and a Go run-time panic (index out of range, closing a
closed channel, sending on a closed channel) is modelled by returning
none from the operation.
-/

/-! ## Association lists with Go map semantics -/

/-- Lookup in an association list: first binding wins (the update
operation keeps keys unique, mirroring a Go map). -/
def alookup {α β : Type} [DecidableEq α] : List (α × β) → α → Option β
  | [], _ => none
  | (k, v) :: rest, key => if k = key then some v else alookup rest key

/-- Go map assignment: replace the binding for the key if present,
otherwise append a new binding. -/
def aset {α β : Type} [DecidableEq α] : List (α × β) → α → β → List (α × β)
  | [], key, val => [(key, val)]
  | (k, v) :: rest, key, val =>
    if k = key then (k, val) :: rest else (k, v) :: aset rest key val

/-- Go map deletion: remove every binding for the key. -/
def aerase {α β : Type} [DecidableEq α] (m : List (α × β)) (key : α) :
    List (α × β) :=
  m.filter (fun p => decide (p.1 ≠ key))

/-! ## The recognizer result types

Shared by both decoder implementations: the Result, Ws and Cw structures
of src/unnamed/part_017 and internal/service/asr/types.go carry the same
fields. -/

/-- One recognized character cell (Go struct Cw). -/
structure Cw where
  sc : Int
  w : String
deriving DecidableEq, Repr

/-- One recognized word slot (Go struct Ws). -/
structure Ws where
  bg : Int
  cw : List Cw
deriving DecidableEq, Repr

/-- One recognition segment (Go struct Result). -/
structure Result where
  ls : Bool
  rg : List Nat
  sn : Nat
  pgs : String
  ws : List Ws
deriving DecidableEq, Repr

namespace XFDecoder

/-- Text of one Ws entry: concatenation of its cw fields, in order
(Go method Ws.String in src/unnamed/part_017). -/
def wsText (w : Ws) : String :=
  w.cw.foldl (fun acc c => acc ++ c.w) ""

/-- Text of one segment: concatenation of its ws entries, in order
(Go method Result.String in src/unnamed/part_017). -/
def resultText (r : Result) : String :=
  r.ws.foldl (fun acc v => acc ++ wsText v) ""

/-- The slot extension performed at the top of Decode: when the slot
array is too short for the incoming sequence number, append nil slots up
to index sn (Go: append of make with length Sn-len+1). -/
def extend (d : List (Option Result)) (sn : Nat) : List (Option Result) :=
  if d.length ≤ sn then d ++ List.replicate (sn + 1 - d.length) none else d

/-- The body of the replace-range loop of Decode, by remaining iteration
count: starting at index a, set n successive slots to nil.  Writing past
the end of the slot array is a Go index-out-of-range panic, modelled as
none. -/
def clearIter (d : List (Option Result)) (a : Nat) : Nat → Option (List (Option Result))
  | 0 => some d
  | n + 1 =>
    if a < d.length then clearIter (d.set a none) (a + 1) n else none

/-- The replace-range loop of Decode: for i := a; i <= b; i++ set slot i
to nil, which executes b + 1 - a iterations (none when a exceeds b). -/
def clearLoop (d : List (Option Result)) (a b : Nat) :
    Option (List (Option Result)) :=
  clearIter d a (b + 1 - a)

/-- Decoder.Decode of src/unnamed/part_017: extend the slot array to
cover sn, on pgs = "rpl" clear the slots of the replace range, then store
the segment at its own slot.  A replace range with fewer than two entries
reads Rg[0] or Rg[1] out of range and panics. -/
def Decode (d : List (Option Result)) (r : Result) :
    Option (List (Option Result)) :=
  let d1 := extend d r.sn
  let d2 :=
    if r.pgs = "rpl" then
      match r.rg with
      | a :: b :: _ => clearLoop d1 a b
      | _ => none
    else
      some d1
  d2.map (fun e => e.set r.sn (some r))

/-- Decoder.String of src/unnamed/part_017: concatenate the text of every
non-nil slot, in slot order. -/
def decoderText (d : List (Option Result)) : String :=
  d.foldl (fun acc v => match v with | none => acc | some r => acc ++ resultText r) ""

/-- Feed a list of segments through Decode starting from the empty slot
array, propagating a panic. -/
def decodeAll (rs : List Result) : Option (List (Option Result)) :=
  rs.foldlM Decode []

/-- Written from the specification text, for comparison with decoderText:
the transcript is the concatenation of all non-empty slots in ascending
sequence order, each slot contributing its words in original order. -/
def specTranscript : List (Option Result) → String
  | [] => ""
  | none :: rest => specTranscript rest
  | some r :: rest => resultText r ++ specTranscript rest

end XFDecoder

namespace SvcDecoder

/-- Decoder.Decode of internal/service/asr/types.go: append-only. -/
def Decode (d : List Result) (r : Result) : List Result :=
  d ++ [r]

/-- Decoder.String of internal/service/asr/types.go: iterate every stored
result, every ws, every cw, appending the w fields. -/
def decoderText (d : List Result) : String :=
  d.foldl
    (fun acc r =>
      r.ws.foldl (fun acc2 w => w.cw.foldl (fun acc3 c => acc3 ++ c.w) acc2) acc)
    ""

/-- Feed a list of segments through the append-only decoder. -/
def decodeAll (rs : List Result) : List Result :=
  rs.foldl Decode []

end SvcDecoder

/-! ## The event-socket client of internal/clients/freeswitch/esl_client.go

Lines of the wire protocol are modelled as lists of characters; the byte
stream feeding the buffered reader is modelled as a list of chunks, each
chunk being what one read from the underlying connection returns. -/

namespace ESL

/-- The ASCII white space recognized by strings.TrimSpace. -/
def isSpace (c : Char) : Bool :=
  c == ' ' || c == '\t' || c == '\n' || c == '\r' || c == '\x0b' || c == '\x0c'

/-- strings.TrimSpace restricted to ASCII input: drop white space from
both ends. -/
def trimSpace (l : List Char) : List Char :=
  ((l.dropWhile isSpace).reverse.dropWhile isSpace).reverse

/-- Split a header line at the first occurrence of the two-character
separator colon-space, as strings.Index does in readHeaders; none when
the separator does not occur. -/
def splitHeaderLine : List Char → Option (List Char × List Char)
  | [] => none
  | ':' :: ' ' :: rest => some ([], rest)
  | c :: rest => (splitHeaderLine rest).map (fun p => (c :: p.1, p.2))

/-- The parse of one raw line: trim, then split at the first
colon-space. -/
def parseLine (l : List Char) : Option (List Char × List Char) :=
  splitHeaderLine (trimSpace l)

/-- ESLClient.readHeaders: consume raw lines until a line that trims to
empty, folding each parseable line into the header map (duplicate keys
overwrite); none models the read error when the stream ends before the
blank line. -/
def readHeaders : List (List Char) → List (List Char × List Char) →
    Option (List (List Char × List Char))
  | [], _ => none
  | line :: rest, acc =>
    let t := trimSpace line
    if t = [] then some acc
    else
      match splitHeaderLine t with
      | some (k, v) => readHeaders rest (aset acc k v)
      | none => readHeaders rest acc

/-- The value a single raw line contributes for the given key: the value
part of its parse when the key part equals that key. -/
def lineValue (k : List Char) (l : List Char) : Option (List Char) :=
  (parseLine l).bind (fun p => if p.1 = k then some p.2 else none)

/-- Written from the specification text: the value of the last line of
the block whose key parses to the given key, later lines taking
precedence. -/
def lastOccValue (k : List Char) : List (List Char) → Option (List Char)
  | [] => none
  | l :: ls =>
    match lastOccValue k ls with
    | some v => some v
    | none => lineValue k l

/-- One iteration of the readHeaders loop on a non-blank line: fold the
parse of the line into the header map, skipping unparseable lines. -/
def headerStep (acc : List (List Char × List Char)) (l : List Char) :
    List (List Char × List Char) :=
  match splitHeaderLine (trimSpace l) with
  | some (k, v) => aset acc k v
  | none => acc

/-- All values contributed for the given key, in line order. -/
def occList (k : List Char) (lines : List (List Char)) : List (List Char) :=
  lines.filterMap (lineValue k)

/-- The keys of the lines that parse, in line order. -/
def parsedKeys (lines : List (List Char)) : List (List Char) :=
  (lines.filterMap parseLine).map Prod.fst

/-- ESLClient.RegisterHandler: plain Go map assignment, one handler per
event name.  Handlers are opaque; they are modelled by identifiers. -/
def registerHandler (m : List (String × Nat)) (name : String) (h : Nat) :
    List (String × Nat) :=
  aset m name h

/-- ESLClient.handleEvent: look up the Event-Name header and invoke the
single registered handler for it, if any.  The returned list is the
sequence of handler identifiers invoked. -/
def handleEvent (m : List (String × Nat)) (headers : List (String × String)) :
    List Nat :=
  match alookup headers "Event-Name" with
  | some name =>
    match alookup m name with
    | some h => [h]
    | none => []
  | none => []

/-- One call of bufio.Reader.Read with a destination of size n: none on
end of stream, otherwise up to n bytes taken from the first available
chunk, returning the bytes delivered and the remaining stream. -/
def bufRead (chunks : List (List Nat)) (n : Nat) :
    Option (List Nat × List (List Nat)) :=
  match chunks with
  | [] => none
  | c :: rest =>
    if c.length ≤ n then some (c, rest)
    else some (c.take n, c.drop n :: rest)

/-- The Content-Length body read of ESLClient.readEventLoop: a single
reader.Read call into a buffer of size n whose returned byte count is
discarded; the bytes delivered by that one call are all the stream bytes
the loop consumes for the body. -/
def readEventBody (chunks : List (List Nat)) (n : Nat) :
    Option (List Nat × List (List Nat)) :=
  if 0 < n then bufRead chunks n else some ([], chunks)

end ESL

/-! ## Session lifecycle of internal/service/asr/xfyun.go

The sessions sync.Map is an association list from call identifier to an
index into a heap of channel records; the heap entry for a session
persists after the registry entry is deleted because the per-session
goroutines keep referring to the channels.  Closing a closed channel or
sending on a closed channel is a Go run-time panic, modelled as none. -/

namespace XFYun

/-- The closeChan and audioChan pair owned by one session, together with
the audio data queued in audioChan (capacity 100). -/
structure SessChans where
  closeClosed : Bool
  audioClosed : Bool
  audioQueue : List (List Nat)
deriving DecidableEq, Repr

/-- The XFYunASR service state the claims talk about: the session
registry and the channel heap. -/
structure XFState where
  sessions : List (String × Nat)
  heap : List SessChans
deriving DecidableEq, Repr

/-- Outcomes of the external effects Start performs: the websocket dial
and the write of the first frame. -/
structure StartEff where
  dialOk : Bool
  writeOk : Bool
deriving DecidableEq, Repr

/-- The errors Start, Stop and WriteAudio can return. -/
inductive ASRErr where
  | emptyCallID
  | sessionExists
  | dialFailed
  | initWriteFailed
  | sessionNotFound
  | audioChanFull
deriving DecidableEq, Repr

/-- XFYunASR.Stop: absent sessions return nil with no effect; a present
session has its last frame written and its two channels closed, and is
deleted from the registry.  none models the double-close panic, which is
impossible from states the sequential operations reach. -/
def Stop (s : XFState) (id : String) : Option XFState :=
  match alookup s.sessions id with
  | none => some s
  | some idx =>
    match s.heap.get? idx with
    | none => some ⟨aerase s.sessions id, s.heap⟩
    | some c =>
      if c.closeClosed ∨ c.audioClosed then none
      else
        some ⟨aerase s.sessions id,
              s.heap.set idx ⟨true, true, c.audioQueue⟩⟩

/-- XFYunASR.Start: reject an empty call identifier, then reject a
duplicate session, then dial, store the new session, and write the first
frame; a failed first-frame write runs Stop on the just-created session
before surfacing the error.  The Bool records whether the network dial
was attempted.  No call-session state is consulted: the function has no
such input. -/
def Start (eff : StartEff) (s : XFState) (id : String) :
    Option (XFState × Option ASRErr) × Bool :=
  if id = "" then (some (s, some .emptyCallID), false)
  else if (alookup s.sessions id).isSome then (some (s, some .sessionExists), false)
  else if eff.dialOk = false then (some (s, some .dialFailed), true)
  else
    let s1 : XFState :=
      ⟨aset s.sessions id s.heap.length, s.heap ++ [⟨false, false, []⟩]⟩
    if eff.writeOk then (some (s1, none), true)
    else ((Stop s1 id).map (fun s2 => (s2, some .initWriteFailed)), true)

/-- XFYunASR.WriteAudio: look the session up; absent sessions give the
session error; a full audioChan hits the select default and gives the
full error; otherwise the chunk is enqueued.  Sending on a closed
channel would panic (none). -/
def WriteAudio (s : XFState) (id : String) (data : List Nat) :
    Option (XFState × Option ASRErr) :=
  match alookup s.sessions id with
  | none => some (s, some .sessionNotFound)
  | some idx =>
    match s.heap.get? idx with
    | none => some (s, some .sessionNotFound)
    | some c =>
      if c.audioClosed then none
      else if c.audioQueue.length < 100 then
        some (⟨s.sessions, s.heap.set idx ⟨c.closeClosed, c.audioClosed, c.audioQueue ++ [data]⟩⟩, none)
      else some (s, some .audioChanFull)

end XFYun

/-! ## Call-session tracker -/

namespace Tracker

/-- Modelled from the spec: the call status carried by a CallSession.
The repository declares a CallStatus enumeration in
internal/types/types.go but contains no tracker that drives it, so the
state set is taken from section 4.3 of the specification. -/
inductive CallStatus where
  | New
  | Ringing
  | Answered
  | Hangup
  | Destroyed
deriving DecidableEq, Repr

/-- Modelled from the spec: the tracker registry.  The live map holds the
tracked sessions; the destroyed list remembers identifiers whose session
reached the terminal Destroyed state, so that events arriving after
destruction can be the no-ops the specification requires. -/
structure TrackerState where
  live : List (String × CallStatus)
  destroyed : List String
deriving DecidableEq, Repr

/-- The empty registry. -/
def emptyState : TrackerState := ⟨[], []⟩

/-- Modelled from the spec: the transition table of section 4.3.
CHANNEL_CREATE creates a New session if absent, CHANNEL_ANSWER and
CHANNEL_HANGUP move a tracked session to Answered and Hangup,
CHANNEL_DESTROY moves it to Destroyed and removes it from the live map;
events for untracked identifiers, or for identifiers already destroyed,
are no-ops.  The second component reports the status the session holds
after the event, none for a no-op. -/
def step (st : TrackerState) (name id : String) :
    TrackerState × Option CallStatus :=
  if id ∈ st.destroyed then (st, none)
  else if name = "CHANNEL_CREATE" then
    if (alookup st.live id).isSome then (st, none)
    else (⟨aset st.live id .New, st.destroyed⟩, some .New)
  else if name = "CHANNEL_ANSWER" then
    if (alookup st.live id).isSome then
      (⟨aset st.live id .Answered, st.destroyed⟩, some .Answered)
    else (st, none)
  else if name = "CHANNEL_HANGUP" then
    if (alookup st.live id).isSome then
      (⟨aset st.live id .Hangup, st.destroyed⟩, some .Hangup)
    else (st, none)
  else if name = "CHANNEL_DESTROY" then
    if (alookup st.live id).isSome then
      (⟨aerase st.live id, id :: st.destroyed⟩, some .Destroyed)
    else (st, none)
  else (st, none)

/-- Deliver a list of events, keeping the status reported by the last
step. -/
def run (st : TrackerState) (evs : List (String × String)) :
    TrackerState × Option CallStatus :=
  evs.foldl (fun acc ev => step acc.1 ev.1 ev.2) (st, none)

end Tracker

/-! ## Concrete protocol data used by the theorems -/

/-- The segment with sequence number 0 carrying the word hello. -/
def segHello : Result := ⟨false, [], 0, "", [⟨0, [⟨0, "hello"⟩]⟩]⟩

/-- The correction segment with sequence number 1, pgs rpl and replace
range [0,0], carrying the words hi there. -/
def segReplace : Result :=
  ⟨false, [0, 0], 1, "rpl", [⟨0, [⟨0, "hi "⟩, ⟨0, "there"⟩]⟩]⟩

/-- The slot array reached after feeding segHello then segReplace. -/
def slotsAfterReplace : List (Option Result) := [none, some segReplace]

/-- A correction segment whose replace range [0,1] reaches past every
slot the decoder has seen: on an empty decoder its own sequence number 0
extends the array to one slot only, so clearing slot 1 is out of
range. -/
def segBadRange : Result := ⟨false, [0, 1], 0, "rpl", []⟩

/-- A plain segment reusing sequence number 0, for the overwrite-in-place
case. -/
def segBye : Result := ⟨false, [], 0, "", [⟨0, [⟨0, "bye"⟩]⟩]⟩

/-! ## Theorems -/

theorem alookup_aset_self {α β : Type} [DecidableEq α]
    (m : List (α × β)) (k : α) (v : β) : alookup (aset m k v) k = some v := by
  induction m with
  | nil => simp [aset, alookup]
  | cons p rest ih =>
    obtain ⟨k', v'⟩ := p
    by_cases h : k' = k
    · simp [aset, h, alookup]
    · simp [aset, h, alookup, ih]

theorem alookup_aset_ne {α β : Type} [DecidableEq α]
    (m : List (α × β)) (k k' : α) (v : β) (h : k ≠ k') :
    alookup (aset m k v) k' = alookup m k' := by
  induction m with
  | nil => simp [aset, alookup, h]
  | cons p rest ih =>
    obtain ⟨k₀, v₀⟩ := p
    by_cases h0 : k₀ = k
    · subst h0
      simp [aset, alookup, h]
    · simp [aset, h0, alookup, ih]

theorem alookup_aerase_self {α β : Type} [DecidableEq α]
    (m : List (α × β)) (k : α) : alookup (aerase m k) k = none := by
  induction m with
  | nil => simp [aerase, alookup]
  | cons p rest ih =>
    obtain ⟨k₀, v₀⟩ := p
    by_cases h : k₀ = k
    · subst h
      simpa [aerase, alookup] using ih
    · simpa [aerase, alookup, h] using ih

namespace XFDecoder

theorem foldl_text (d : List (Option Result)) (acc : String) :
    d.foldl (fun a v => match v with | none => a | some r => a ++ resultText r) acc
      = acc ++ specTranscript d := by
  induction d generalizing acc with
  | nil => simp [specTranscript, String.append_empty]
  | cons v rest ih =>
    cases v with
    | none => simp only [List.foldl, specTranscript, ih]
    | some r => simp only [List.foldl, specTranscript, ih, String.append_assoc]

theorem decoderText_eq_spec (d : List (Option Result)) :
    decoderText d = specTranscript d := by
  have h := foldl_text d ""
  simpa [decoderText, String.empty_append] using h

end XFDecoder

/-- Claim C1: after each Decode call of the slot-array reconciler, the
transcript returned by its String method is the concatenation of all
non-empty slots in ascending sequence order, each slot contributing its
words in original order; in particular feeding seq 0 hello and then the
seq 1 rpl segment with replace range [0,0] and words hi there yields
exactly the transcript hi there. -/
theorem c1_reconciled_transcript :
    (∀ rs d, XFDecoder.decodeAll rs = some d →
        XFDecoder.decoderText d = XFDecoder.specTranscript d)
    ∧ XFDecoder.decodeAll [segHello, segReplace] = some slotsAfterReplace
    ∧ XFDecoder.decoderText slotsAfterReplace = "hi there" := by
  refine ⟨fun rs d _ => XFDecoder.decoderText_eq_spec d, rfl, rfl⟩

/-- Witness for claim C1 at the concrete two-segment run. -/
theorem c1_reconciled_transcript_witness :
    XFDecoder.decoderText slotsAfterReplace =
      XFDecoder.specTranscript slotsAfterReplace :=
  c1_reconciled_transcript.1 [segHello, segReplace] slotsAfterReplace rfl

/-- Claim C3, the failing input: a frame declaring Content-Length 10
whose body arrives split so that the single reader.Read call of
readEventLoop in esl_client.go finds only 4 bytes available; the read
completes without any error and consumes only those 4 bytes, silently
truncating the body and leaving the remaining 6 body bytes in the
stream. -/
theorem c3_short_body_read_truncates :
    ESL.readEventBody [[97, 98, 99, 100], [101, 102, 103, 104, 105, 106]] 10
      = some ([97, 98, 99, 100], [[101, 102, 103, 104, 105, 106]])
    ∧ ([97, 98, 99, 100] : List Nat).length ≠ 10 :=
  ⟨rfl, by decide⟩

/-- Claim C5: delivering CHANNEL_CREATE, CHANNEL_ANSWER, CHANNEL_HANGUP,
CHANNEL_DESTROY for one call identifier leaves the session in the
terminal Destroyed state, absent from the live registry, and every later
event for that identifier is a no-op on the registry. -/
theorem c5_lifecycle_terminal :
    Tracker.run Tracker.emptyState
        [("CHANNEL_CREATE", "abc"), ("CHANNEL_ANSWER", "abc"),
         ("CHANNEL_HANGUP", "abc"), ("CHANNEL_DESTROY", "abc")]
      = (⟨[], ["abc"]⟩, some .Destroyed)
    ∧ alookup (⟨[], ["abc"]⟩ : Tracker.TrackerState).live "abc" = none
    ∧ ∀ name : String,
        Tracker.step ⟨[], ["abc"]⟩ name "abc" = (⟨[], ["abc"]⟩, none) := by
  refine ⟨rfl, rfl, fun name => ?_⟩
  simp [Tracker.step]

/-- Claim C9: the two duplicated decoder implementations are mutually
inconsistent: on the two-segment run containing a pgs rpl correction the
slot-array decoder of the xfyun client and the append-only decoder of
the asr service return different transcripts. -/
theorem c9_decoders_disagree :
    XFDecoder.decodeAll [segHello, segReplace] = some slotsAfterReplace
    ∧ XFDecoder.decoderText slotsAfterReplace = "hi there"
    ∧ SvcDecoder.decoderText (SvcDecoder.decodeAll [segHello, segReplace])
        = "hellohi there"
    ∧ XFDecoder.decoderText slotsAfterReplace
        ≠ SvcDecoder.decoderText (SvcDecoder.decodeAll [segHello, segReplace]) := by
  refine ⟨rfl, rfl, rfl, by decide⟩

/-- Claim C10: Start with the empty call identifier is rejected before
any network dial is attempted and the session registry is left
unchanged. -/
theorem c10_empty_call_id_rejected (eff : XFYun.StartEff) (s : XFYun.XFState) :
    XFYun.Start eff s "" = (some (s, some .emptyCallID), false) := by
  simp [XFYun.Start]

/-- Claim C7 counterexample: registering two handlers for the same event
name keeps only the second, and dispatching one event with that name
invokes only the second handler, not both in registration order. -/
theorem c7_counterexample_second_registration_overwrites :
    ESL.handleEvent (ESL.registerHandler (ESL.registerHandler [] "E" 1) "E" 2)
        [("Event-Name", "E")] = [2]
    ∧ ([2] : List Nat) ≠ [1, 2] :=
  ⟨rfl, by decide⟩

/-- Claim C7 as amended: RegisterHandler stores at most one handler per
event name in a map, a later registration replacing any earlier one, and
dispatching an event invokes exactly the handler registered last for its
name. -/
theorem c7_amended_single_handler_dispatched
    (m : List (String × Nat)) (name : String) (h : Nat)
    (headers : List (String × String))
    (hh : alookup headers "Event-Name" = some name) :
    ESL.handleEvent (ESL.registerHandler m name h) headers = [h] := by
  simp [ESL.handleEvent, hh, ESL.registerHandler, alookup_aset_self]

/-- Witness for the amended claim C7 at a concrete registry and event. -/
theorem c7_amended_single_handler_dispatched_witness :
    ESL.handleEvent (ESL.registerHandler [("X", 7)] "E" 3)
        [("Other", "v"), ("Event-Name", "E")] = [3] :=
  c7_amended_single_handler_dispatched [("X", 7)] "E" 3
    [("Other", "v"), ("Event-Name", "E")] rfl

/-- Claim C4 counterexample: with no CallSession tracked at all for the
identifier abc (the empty tracker registry), Start nevertheless succeeds
when the dial and first write succeed, and stores an ASRSession for abc,
so an ASRSession exists while the paired CallSession does not and is not
Answered. -/
theorem c4_counterexample_start_ignores_call_state :
    alookup Tracker.emptyState.live "abc" = none
    ∧ (XFYun.Start ⟨true, true⟩ ⟨[], []⟩ "abc").1
        = some (⟨[("abc", 0)], [⟨false, false, []⟩]⟩, none)
    ∧ alookup ([("abc", 0)] : List (String × Nat)) "abc" = some 0 :=
  ⟨rfl, rfl, rfl⟩

/-- Claim C4 as amended: Start rejects exactly the empty call identifier
and identifiers that already own an ASRSession; it consults no
CallSession state whatsoever, so when the dial and the first write
succeed it creates a session regardless of whether any CallSession
exists or is Answered, and the exists-iff-Answered invariant is not
maintained by this code. -/
theorem c4_amended_start_guards :
    (∀ eff s, (XFYun.Start eff s "").1 = some (s, some .emptyCallID))
    ∧ (∀ eff s id idx, id ≠ "" → alookup s.sessions id = some idx →
        (XFYun.Start eff s id).1 = some (s, some .sessionExists))
    ∧ (∀ s id, id ≠ "" → alookup s.sessions id = none →
        (XFYun.Start ⟨true, true⟩ s id).1
          = some (⟨aset s.sessions id s.heap.length,
                   s.heap ++ [⟨false, false, []⟩]⟩, none)) := by
  refine ⟨fun eff s => by simp [XFYun.Start], ?_, ?_⟩
  · intro eff s id idx hid hm
    simp [XFYun.Start, hid, hm]
  · intro s id hid hm
    simp [XFYun.Start, hid, hm]

/-- Witness for the amended claim C4 at concrete states. -/
theorem c4_amended_start_guards_witness :
    ((XFYun.Start ⟨true, true⟩ ⟨[], []⟩ "").1 = some (⟨[], []⟩, some .emptyCallID))
    ∧ ((XFYun.Start ⟨true, true⟩ ⟨[("a", 0)], [⟨false, false, []⟩]⟩ "a").1
        = some (⟨[("a", 0)], [⟨false, false, []⟩]⟩, some .sessionExists))
    ∧ ((XFYun.Start ⟨true, true⟩ ⟨[], []⟩ "a").1
        = some (⟨[("a", 0)], [⟨false, false, []⟩]⟩, none)) :=
  ⟨c4_amended_start_guards.1 ⟨true, true⟩ ⟨[], []⟩,
   c4_amended_start_guards.2.1 ⟨true, true⟩ ⟨[("a", 0)], [⟨false, false, []⟩]⟩
     "a" 0 (by decide) rfl,
   c4_amended_start_guards.2.2 ⟨[], []⟩ "a" (by decide) rfl⟩

/-- Claim C6: Stop is idempotent and safe under misordering: a second
Stop after a completed Stop is a no-op that does not panic; Stop for a
call whose Start has not yet stored a session is a no-op that does not
panic; a completed Stop has closed the closeChan of the stopped session,
which is the signal on which its sender loop exits, so the loop is not
leaked; and WriteAudio after a completed Stop returns the session error
instead of enqueuing audio. -/
theorem c6_stop_idempotent_safe :
    (∀ s id s₁, XFYun.Stop s id = some s₁ → XFYun.Stop s₁ id = some s₁)
    ∧ (∀ s id, alookup s.sessions id = none → XFYun.Stop s id = some s)
    ∧ (∀ s id s₁ idx c, XFYun.Stop s id = some s₁ →
        alookup s.sessions id = some idx → s.heap.get? idx = some c →
        s₁.heap.get? idx = some ⟨true, true, c.audioQueue⟩)
    ∧ (∀ s id s₁ d, XFYun.Stop s id = some s₁ →
        XFYun.WriteAudio s₁ id d = some (s₁, some .sessionNotFound)) := by
  have hlook : ∀ s id s₁, XFYun.Stop s id = some s₁ →
      alookup s₁.sessions id = none := by
    intro s id s₁ h
    cases hm : alookup s.sessions id with
    | none =>
      simp only [XFYun.Stop, hm] at h
      cases h
      exact hm
    | some idx =>
      cases hc : s.heap.get? idx with
      | none =>
        simp only [XFYun.Stop, hm, hc] at h
        cases h
        exact alookup_aerase_self _ _
      | some c =>
        simp only [XFYun.Stop, hm, hc] at h
        by_cases hcl : c.closeClosed = true ∨ c.audioClosed = true
        · simp [hcl] at h
        · simp only [hcl, if_false] at h
          cases h
          exact alookup_aerase_self _ _
  refine ⟨?_, ?_, ?_, ?_⟩
  · intro s id s₁ h
    have := hlook s id s₁ h
    unfold XFYun.Stop
    rw [this]
  · intro s id hm
    unfold XFYun.Stop
    rw [hm]
  · intro s id s₁ idx c h hm hc
    simp only [XFYun.Stop, hm, hc] at h
    by_cases hcl : c.closeClosed = true ∨ c.audioClosed = true
    · simp [hcl] at h
    · simp only [hcl, if_false] at h
      cases h
      have hlt : idx < s.heap.length := by
        rcases List.get?_eq_some.mp hc with ⟨hl, _⟩
        exact hl
      simpa [List.get?_eq_getElem?] using
        List.getElem?_set_eq_of_lt (⟨true, true, c.audioQueue⟩ : XFYun.SessChans) hlt
  · intro s id s₁ d h
    have := hlook s id s₁ h
    unfold XFYun.WriteAudio
    rw [this]

/-- Witness for claim C6 at a concrete one-session state. -/
theorem c6_stop_idempotent_safe_witness :
    XFYun.Stop (⟨[], [⟨true, true, []⟩]⟩ : XFYun.XFState) "a"
        = some ⟨[], [⟨true, true, []⟩]⟩
    ∧ XFYun.Stop (⟨[("b", 0)], [⟨false, false, []⟩]⟩ : XFYun.XFState) "a"
        = some ⟨[("b", 0)], [⟨false, false, []⟩]⟩
    ∧ (⟨[], [⟨true, true, []⟩]⟩ : XFYun.XFState).heap.get? 0
        = some ⟨true, true, []⟩
    ∧ XFYun.WriteAudio (⟨[], [⟨true, true, []⟩]⟩ : XFYun.XFState) "a" [1, 2]
        = some (⟨[], [⟨true, true, []⟩]⟩, some .sessionNotFound) :=
  ⟨c6_stop_idempotent_safe.1 ⟨[("a", 0)], [⟨false, false, []⟩]⟩ "a"
     ⟨[], [⟨true, true, []⟩]⟩ rfl,
   c6_stop_idempotent_safe.2.1 ⟨[("b", 0)], [⟨false, false, []⟩]⟩ "a" rfl,
   c6_stop_idempotent_safe.2.2.1 ⟨[("a", 0)], [⟨false, false, []⟩]⟩ "a"
     ⟨[], [⟨true, true, []⟩]⟩ 0 ⟨false, false, []⟩ rfl rfl rfl,
   c6_stop_idempotent_safe.2.2.2 ⟨[("a", 0)], [⟨false, false, []⟩]⟩ "a"
     ⟨[], [⟨true, true, []⟩]⟩ [1, 2] rfl⟩

namespace XFDecoder

theorem extend_lt (d : List (Option Result)) (sn : Nat) :
    sn < (extend d sn).length := by
  unfold extend
  by_cases h : d.length ≤ sn
  · simp only [h, if_true, List.length_append, List.length_replicate]
    omega
  · simp only [h, if_false]
    omega

theorem clearIter_some (n : Nat) : ∀ (d : List (Option Result)) (a : Nat),
    a + n ≤ d.length →
    ∃ e, clearIter d a n = some e ∧ e.length = d.length ∧
      ∀ i, e.get? i = if a ≤ i ∧ i < a + n then some none else d.get? i := by
  induction n with
  | zero =>
    intro d a _
    refine ⟨d, rfl, rfl, fun i => ?_⟩
    have hc : ¬(a ≤ i ∧ i < a + 0) := by omega
    rw [if_neg hc]
  | succ n ih =>
    intro d a h
    have ha : a < d.length := by omega
    have h' : (a + 1) + n ≤ (d.set a none).length := by
      rw [List.length_set]
      omega
    obtain ⟨e, he, hlen, hpt⟩ := ih (d.set a none) (a + 1) h'
    refine ⟨e, ?_, ?_, ?_⟩
    · simpa [clearIter, ha] using he
    · rw [hlen, List.length_set]
    · intro i
      have heq := hpt i
      by_cases hia : i = a
      · subst hia
        have hc1 : ¬(i + 1 ≤ i ∧ i < i + 1 + n) := by omega
        have hc2 : i ≤ i ∧ i < i + (n + 1) := by omega
        rw [heq, if_neg hc1, if_pos hc2]
        simpa [List.get?_eq_getElem?] using
          List.getElem?_set_eq_of_lt (none : Option Result) ha
      · have hset : (d.set a none).get? i = d.get? i :=
          List.get?_set_ne none d (fun hh => hia hh.symm)
        by_cases hcond : a ≤ i ∧ i < a + (n + 1)
        · have hc : a + 1 ≤ i ∧ i < a + 1 + n := by omega
          rw [heq, if_pos hc, if_pos hcond]
        · have hc : ¬(a + 1 ≤ i ∧ i < a + 1 + n) := by omega
          rw [heq, if_neg hc, hset, if_neg hcond]

theorem clearIter_none (n : Nat) : ∀ (d : List (Option Result)) (a : Nat),
    0 < n → d.length < a + n → clearIter d a n = none := by
  induction n with
  | zero =>
    intro d a h _
    exact absurd h (by omega)
  | succ n ih =>
    intro d a _ hlen
    by_cases ha : a < d.length
    · have h1 : 0 < n := by omega
      have h2 : (d.set a none).length < (a + 1) + n := by
        rw [List.length_set]
        omega
      simpa [clearIter, ha] using ih (d.set a none) (a + 1) h1 h2
    · simp [clearIter, ha]

/-- Claim C2 counterexample: on the empty decoder, the correction segment
whose replace range is [0,1] makes Decode panic with an index out of
range instead of completing without error: slot 1 is never seen, the
extension only reaches slot 0, and the clearing loop writes past the end
of the slot array. -/
theorem c2_counterexample_unseen_range_panics :
    XFDecoder.Decode [] segBadRange = none := rfl

/-- Claim C2 as amended: after the slot array is extended to cover the
incoming sequence number, a replace range whose end lies inside the
extended array is honored, clearing exactly the slots of the range
(slots the extension just created were already empty, so for them the
clear is a no-op) and then storing the segment at its own slot, which
also covers duplicate sequence numbers overwriting in place; but a
replace range whose end lies at or past the end of the extended array
makes Decode panic with an index out of range, and a plain duplicate
sequence number with no replace flag simply overwrites its slot in
place. -/
theorem c2_amended_replace_range_behavior :
    (∀ (d : List (Option Result)) (r : Result) (a b : Nat),
      r.pgs = "rpl" → r.rg = [a, b] →
      (XFDecoder.Decode d r = none ↔
        a ≤ b ∧ (XFDecoder.extend d r.sn).length ≤ b))
    ∧ (∀ (d : List (Option Result)) (r : Result) (a b : Nat),
        r.pgs = "rpl" → r.rg = [a, b] →
        (b < a ∨ b < (XFDecoder.extend d r.sn).length) →
        ∃ e, XFDecoder.Decode d r = some e ∧
          e.length = (XFDecoder.extend d r.sn).length ∧
          ∀ i, e.get? i =
            if i = r.sn then some (some r)
            else if a ≤ i ∧ i ≤ b then some none
            else (XFDecoder.extend d r.sn).get? i)
    ∧ (∀ (d : List (Option Result)) (r : Result),
        r.sn < d.length → r.pgs ≠ "rpl" →
        XFDecoder.Decode d r = some (d.set r.sn (some r))) := by
  refine ⟨?_, ?_, ?_⟩
  · intro d r a b hp hrg
    constructor
    · intro hnone
      by_contra hcon
      rcases Nat.lt_or_ge b a with hba | hab
      · have : XFDecoder.Decode d r =
            some ((extend d r.sn).set r.sn (some r)) := by
          have hn : b + 1 - a = 0 := by omega
          simp [Decode, hp, hrg, clearLoop, hn, clearIter]
        rw [this] at hnone
        cases hnone
      · have hblt : b < (extend d r.sn).length := by
          push_neg at hcon
          exact hcon (by omega)
        obtain ⟨e, he, _, _⟩ :=
          clearIter_some (b + 1 - a) (extend d r.sn) a (by omega)
        have : XFDecoder.Decode d r = some (e.set r.sn (some r)) := by
          simp [Decode, hp, hrg, clearLoop, he]
        rw [this] at hnone
        cases hnone
    · rintro ⟨hab, hlen⟩
      have hn := clearIter_none (b + 1 - a) (extend d r.sn) a (by omega) (by omega)
      simp [Decode, hp, hrg, clearLoop, hn]
  · intro d r a b hp hrg hok
    have hsn := extend_lt d r.sn
    by_cases hba : b < a
    · have hn : b + 1 - a = 0 := by omega
      refine ⟨(extend d r.sn).set r.sn (some r), ?_, ?_, ?_⟩
      · simp [Decode, hp, hrg, clearLoop, hn, clearIter]
      · rw [List.length_set]
      · intro i
        by_cases hi : i = r.sn
        · subst hi
          rw [if_pos rfl]
          simpa [List.get?_eq_getElem?] using
            List.getElem?_set_eq_of_lt (some r) hsn
        · have hc : ¬(a ≤ i ∧ i ≤ b) := by omega
          rw [if_neg hi, if_neg hc]
          exact List.get?_set_ne (some r) _ (fun hh => hi hh.symm)
    · have hblt : b < (extend d r.sn).length := by
        rcases hok with h | h
        · exact absurd h hba
        · exact h
      obtain ⟨e, he, hlen, hpt⟩ :=
        clearIter_some (b + 1 - a) (extend d r.sn) a (by omega)
      refine ⟨e.set r.sn (some r), ?_, ?_, ?_⟩
      · simp [Decode, hp, hrg, clearLoop, he]
      · rw [List.length_set, hlen]
      · intro i
        by_cases hi : i = r.sn
        · subst hi
          rw [if_pos rfl]
          have hre : r.sn < e.length := by omega
          simpa [List.get?_eq_getElem?] using
            List.getElem?_set_eq_of_lt (some r) hre
        · rw [if_neg hi]
          have hset : (e.set r.sn (some r)).get? i = e.get? i :=
            List.get?_set_ne (some r) _ (fun hh => hi hh.symm)
          rw [hset, hpt i]
          by_cases hc : a ≤ i ∧ i ≤ b
          · have hc' : a ≤ i ∧ i < a + (b + 1 - a) := by omega
            rw [if_pos hc', if_pos hc]
          · have hc' : ¬(a ≤ i ∧ i < a + (b + 1 - a)) := by omega
            rw [if_neg hc', if_neg hc]
  · intro d r hlt hp
    have hext : extend d r.sn = d := by
      unfold extend
      simp [Nat.not_le.mpr hlt]
    simp [Decode, hp, hext]

/-- Witness for the amended claim C2: the panic condition at the
counterexample input, the honored replace range of the two-segment run,
and a duplicate sequence number overwriting in place. -/
theorem c2_amended_replace_range_behavior_witness :
    (XFDecoder.Decode [] segBadRange = none ↔
      0 ≤ 1 ∧ (XFDecoder.extend [] segBadRange.sn).length ≤ 1)
    ∧ (∃ e, XFDecoder.Decode [some segHello] segReplace = some e ∧
        e.length = (XFDecoder.extend [some segHello] segReplace.sn).length ∧
        ∀ i, e.get? i =
          if i = segReplace.sn then some (some segReplace)
          else if 0 ≤ i ∧ i ≤ 0 then some none
          else (XFDecoder.extend [some segHello] segReplace.sn).get? i)
    ∧ XFDecoder.Decode [some segHello] segBye
        = some ([some segHello].set segBye.sn (some segBye)) :=
  ⟨c2_amended_replace_range_behavior.1 [] segBadRange 0 1 rfl rfl,
   c2_amended_replace_range_behavior.2.1 [some segHello] segReplace 0 0 rfl rfl
     (Or.inr (by decide)),
   c2_amended_replace_range_behavior.2.2 [some segHello] segBye
     (by decide) (by decide)⟩

end XFDecoder

theorem perm_eq_of_length_le_one {α : Type} {l1 l2 : List α}
    (hp : l1.Perm l2) (hl : l2.length ≤ 1) : l1 = l2 := by
  cases l2 with
  | nil => exact List.perm_nil.mp hp
  | cons a t =>
    cases t with
    | nil => exact List.perm_singleton.mp hp
    | cons b t' => simp at hl

theorem getLast?_cons_or {α : Type} (v : α) (t : List α) :
    (v :: t).getLast? = t.getLast?.or (some v) := by
  cases t with
  | nil => simp [Option.or]
  | cons x t' =>
    rw [List.getLast?_cons_cons]
    cases h : (x :: t').getLast? with
    | none =>
      have hs : (x :: t').getLast?.isSome := List.getLast?_isSome.mpr (by simp)
      rw [h] at hs
      cases hs
    | some w => rfl

namespace ESL

theorem lastOccValue_cons (k l : List Char) (ls : List (List Char)) :
    lastOccValue k (l :: ls) = (lastOccValue k ls).or (lineValue k l) := by
  cases h : lastOccValue k ls <;> simp [lastOccValue, h, Option.or]

theorem alookup_headerStep (acc : List (List Char × List Char))
    (l k : List Char) :
    alookup (headerStep acc l) k = (lineValue k l).or (alookup acc k) := by
  unfold headerStep lineValue parseLine
  cases hs : splitHeaderLine (trimSpace l) with
  | none => simp [Option.or]
  | some p =>
    obtain ⟨k', v⟩ := p
    by_cases hk : k' = k
    · subst hk
      simp [alookup_aset_self, Option.or]
    · simp [hk, alookup_aset_ne _ _ _ _ hk, Option.or]

theorem alookup_foldl_headerStep (lines : List (List Char)) :
    ∀ (acc : List (List Char × List Char)) (k : List Char),
    alookup (lines.foldl headerStep acc) k
      = (lastOccValue k lines).or (alookup acc k) := by
  induction lines with
  | nil =>
    intro acc k
    simp [lastOccValue, Option.or]
  | cons l ls ih =>
    intro acc k
    rw [List.foldl_cons, ih, lastOccValue_cons, alookup_headerStep]
    cases lastOccValue k ls <;> cases lineValue k l <;> simp [Option.or]

theorem readHeaders_append_blank (lines : List (List Char)) :
    ∀ acc, (∀ l ∈ lines, trimSpace l ≠ []) →
    readHeaders (lines ++ [[]]) acc = some (lines.foldl headerStep acc) := by
  induction lines with
  | nil =>
    intro acc _
    simp [readHeaders, trimSpace]
  | cons l ls ih =>
    intro acc hnb
    have hl : ¬(trimSpace l = []) := hnb l (List.mem_cons_self l ls)
    have hls : ∀ x ∈ ls, trimSpace x ≠ [] :=
      fun x hx => hnb x (List.mem_cons_of_mem l hx)
    have hstep : readHeaders ((l :: ls) ++ [[]]) acc
        = readHeaders (ls ++ [[]]) (headerStep acc l) := by
      cases hs : splitHeaderLine (trimSpace l) with
      | none => simp [readHeaders, headerStep, hl, hs]
      | some p =>
        obtain ⟨k, v⟩ := p
        simp [readHeaders, headerStep, hl, hs]
    rw [hstep, ih _ hls, List.foldl_cons]

theorem lastOccValue_eq_getLast (k : List Char) (lines : List (List Char)) :
    lastOccValue k lines = (occList k lines).getLast? := by
  induction lines with
  | nil => rfl
  | cons l ls ih =>
    rw [lastOccValue_cons, ih]
    unfold occList
    rw [List.filterMap_cons]
    cases hv : lineValue k l with
    | none =>
      cases (List.filterMap (lineValue k) ls).getLast? <;> simp [Option.or]
    | some v => rw [getLast?_cons_or]

theorem filterMap_key_nil (k : List Char) :
    ∀ (ps : List (List Char × List Char)), k ∉ ps.map Prod.fst →
    ps.filterMap (fun p => if p.1 = k then some p.2 else none) = [] := by
  intro ps
  induction ps with
  | nil => intro _; rfl
  | cons p t ih =>
    intro hk
    have h1 : ¬(p.1 = k) := by
      intro h
      exact hk (by simp [h])
    have h2 : k ∉ t.map Prod.fst := by
      intro h
      exact hk (by simp [h])
    rw [List.filterMap_cons]
    simp only [h1, if_false]
    exact ih h2

theorem occList_length_le_one (k : List Char) (lines : List (List Char))
    (hnd : (parsedKeys lines).Nodup) : (occList k lines).length ≤ 1 := by
  have hocc : occList k lines
      = (lines.filterMap parseLine).filterMap
          (fun p => if p.1 = k then some p.2 else none) := by
    rw [List.filterMap_filterMap]
    rfl
  rw [hocc]
  unfold parsedKeys at hnd
  generalize lines.filterMap parseLine = ps at hnd ⊢
  induction ps with
  | nil => simp
  | cons p t ih =>
    rw [List.map_cons, List.nodup_cons] at hnd
    rw [List.filterMap_cons]
    by_cases h : p.1 = k
    · simp only [h, if_pos rfl]
      have ht : t.filterMap (fun p => if p.1 = k then some p.2 else none) = [] := by
        apply filterMap_key_nil
        rw [← h]
        exact hnd.1
      rw [ht]
      simp
    · simp only [h, if_false]
      exact ih hnd.2

end ESL

/-- Claim C8: for every header block terminated by a blank line, the
parsed header map resolves each key to the value of the last line
carrying that key, and when the keys of the block are pairwise distinct
the parsed map is independent of the order of the lines. -/
theorem c8_header_parse_order_independent (lines : List (List Char))
    (hnb : ∀ l ∈ lines, ESL.trimSpace l ≠ []) :
    (∃ m, ESL.readHeaders (lines ++ [[]]) [] = some m ∧
        ∀ k, alookup m k = ESL.lastOccValue k lines)
    ∧ (∀ lines' : List (List Char), lines'.Perm lines →
        (ESL.parsedKeys lines).Nodup →
        ∃ m m', ESL.readHeaders (lines ++ [[]]) [] = some m ∧
          ESL.readHeaders (lines' ++ [[]]) [] = some m' ∧
          ∀ k, alookup m' k = alookup m k) := by
  have hmain : ∀ (L : List (List Char)), (∀ l ∈ L, ESL.trimSpace l ≠ []) →
      ESL.readHeaders (L ++ [[]]) [] = some (L.foldl ESL.headerStep [])
      ∧ ∀ k, alookup (L.foldl ESL.headerStep []) k = ESL.lastOccValue k L := by
    intro L hL
    refine ⟨ESL.readHeaders_append_blank L [] hL, fun k => ?_⟩
    rw [ESL.alookup_foldl_headerStep]
    cases ESL.lastOccValue k L <;> simp [alookup, Option.or]
  constructor
  · obtain ⟨h1, h2⟩ := hmain lines hnb
    exact ⟨_, h1, h2⟩
  · intro lines' hperm hnd
    have hnb' : ∀ l ∈ lines', ESL.trimSpace l ≠ [] :=
      fun l hl => hnb l (hperm.mem_iff.mp hl)
    obtain ⟨h1, h2⟩ := hmain lines hnb
    obtain ⟨h1', h2'⟩ := hmain lines' hnb'
    refine ⟨_, _, h1, h1', fun k => ?_⟩
    rw [h2, h2', ESL.lastOccValue_eq_getLast, ESL.lastOccValue_eq_getLast]
    have hocc : ESL.occList k lines' = ESL.occList k lines :=
      perm_eq_of_length_le_one (List.Perm.filterMap _ hperm)
        (ESL.occList_length_le_one k lines hnd)
    rw [hocc]

/-- Witness for claim C8 at a concrete two-line header block. -/
theorem c8_header_parse_order_independent_witness :
    ∃ m, ESL.readHeaders
        ([['a', ':', ' ', 'x'], ['b', ':', ' ', 'y']] ++ [[]]) [] = some m
      ∧ ∀ k, alookup m k
          = ESL.lastOccValue k [['a', ':', ' ', 'x'], ['b', ':', ' ', 'y']] :=
  (c8_header_parse_order_independent
    [['a', ':', ' ', 'x'], ['b', ':', ' ', 'y']] (by decide)).1
